import Mathlib

/-
Verification development for the M/M/1/K queueing simulation (src/mm1k.py).

The embedding models the core of the program:
  * `source`          (src/mm1k.py lines 25-32)  — the arrival generator,
  * `packet`          (src/mm1k.py lines 35-56)  — the per-customer lifecycle,
  * `run_simulation`  (src/mm1k.py lines 58-70)  — seeding, setup, run, statistics.

The simpy environment (event scheduler and the capacity-1 `Resource`) is an
external library, not part of src/.  It is modelled from the spec: events are
(timestamp, continuation) pairs totally ordered by timestamp with ties broken
FIFO by insertion order; the server resource is a single holder slot plus a
FIFO waiting line; a grant (whether immediate or on release) resumes the
granted process through the event queue at the current virtual time.

Virtual time is ℚ (the Python floats are used only for exact +,-,*,/ here).
The random module's seeded exponential-variate generator is out of scope per
the spec; it is modelled as an environment-supplied family
`g : Nat → Nat → ℚ` mapping a seed to the stream of unit-rate exponential
draws, with `expovariate lam` scaling draw `x` to `x / lam` (Python's
`expovariate(lam)` returns `-log(1-U)/lam`, a unit-exponential over `lam`).
The global generator state is a `PRNG` (stream plus position) threaded
through `run_simulation`, which reseeds it first as the Python code does.

Ghost fields `spawned` (customers created by `source`) and `departed`
(customers that finished service and terminated) instrument the state; they
influence nothing.
-/

namespace MM1K

/-- An event continuation: the four suspension points of the two processes.
`src i` resumes the `source` loop at iteration `i`; `init idx srv` starts the
body of `packet` number `idx` (simpy schedules a process's first step at the
current time when `env.process` is called); `grant idx arrv srv` resumes a
packet whose server request was granted; `done idx` resumes a packet whose
service timeout elapsed. -/
inductive Ev where
  | src (i : Nat)
  | init (idx : Nat) (srv : ℚ)
  | grant (idx : Nat) (arrv srv : ℚ)
  | done (idx : Nat)
deriving DecidableEq, Repr

/-- State of one simulation run: the scheduler's clock and event queue, the
server resource, the three statistics lists of `run_simulation`
(`wait_times`, `waiting`, `loss`), the generator position, and two ghost
counters. -/
structure Sim where
  now : ℚ
  queue : List (ℚ × Ev)
  serverBusy : Bool
  serverQueue : List (Nat × ℚ × ℚ)
  wait_times : List ℚ
  waiting : List Nat
  loss : List Nat
  rngPos : Nat
  spawned : Nat
  departed : Nat
deriving Repr

/-- Parameters of a run: the arguments of `run_simulation` (with
`number := num_packets.toNat`, since `range(n)` is empty for `n ≤ 0`) and the
post-seed draw stream `u`. -/
structure Params where
  mean_ia : ℚ
  mean_srv : ℚ
  system_capacity : Int
  number : Nat
  trace : Bool
  u : Nat → ℚ

/-- Global state of the Python `random` module: the seeded stream and the
position of the next draw. -/
structure PRNG where
  stream : Nat → ℚ
  pos : Nat

/-- Modelled from the spec: `random.expovariate(lam)` draws the next
exponential variate of rate `lam`; given the unit-rate draw `x` it returns
`x / lam` (the generator's internal algorithm is out of scope). -/
def expovariate (lam : ℚ) (x : ℚ) : ℚ := x / lam

/-- Modelled from the spec: insert an event into the timeline, ordered by
timestamp, ties broken FIFO by insertion order. -/
def insertEv (e : ℚ × Ev) : List (ℚ × Ev) → List (ℚ × Ev)
  | [] => [e]
  | x :: xs => if e.1 < x.1 then e :: x :: xs else x :: insertEv e xs

/-- Schedule an event at absolute time `t`. -/
def schedule (t : ℚ) (e : Ev) (s : Sim) : Sim :=
  { s with queue := insertEv (t, e) s.queue }

@[simp] theorem schedule_queue (t : ℚ) (e : Ev) (s : Sim) :
    (schedule t e s).queue = insertEv (t, e) s.queue := rfl

@[simp] theorem schedule_now (t : ℚ) (e : Ev) (s : Sim) :
    (schedule t e s).now = s.now := rfl

@[simp] theorem schedule_serverBusy (t : ℚ) (e : Ev) (s : Sim) :
    (schedule t e s).serverBusy = s.serverBusy := rfl

@[simp] theorem schedule_serverQueue (t : ℚ) (e : Ev) (s : Sim) :
    (schedule t e s).serverQueue = s.serverQueue := rfl

@[simp] theorem schedule_wait_times (t : ℚ) (e : Ev) (s : Sim) :
    (schedule t e s).wait_times = s.wait_times := rfl

@[simp] theorem schedule_waiting (t : ℚ) (e : Ev) (s : Sim) :
    (schedule t e s).waiting = s.waiting := rfl

@[simp] theorem schedule_loss (t : ℚ) (e : Ev) (s : Sim) :
    (schedule t e s).loss = s.loss := rfl

@[simp] theorem schedule_rngPos (t : ℚ) (e : Ev) (s : Sim) :
    (schedule t e s).rngPos = s.rngPos := rfl

@[simp] theorem schedule_spawned (t : ℚ) (e : Ev) (s : Sim) :
    (schedule t e s).spawned = s.spawned := rfl

@[simp] theorem schedule_departed (t : ℚ) (e : Ev) (s : Sim) :
    (schedule t e s).departed = s.departed := rfl

/-- Dispatch one popped event `e` at time `t`; `s` already has `now := t` and
the event removed.  Each arm transcribes the matching resumption segment of
`source` / `packet` in src/mm1k.py. -/
def stepEv (p : Params) (t : ℚ) (e : Ev) (s : Sim) : Sim :=
  match e with
  | .src i =>
    -- source, lines 27-32: one loop iteration; draws ia_time then srv_time,
    -- spawns the packet process at the current time, then yields
    -- env.timeout(ia_time) (after every spawn, including the last).
    if i < p.number then
      let ia_time := expovariate (1 / p.mean_ia) (p.u s.rngPos)
      let srv_time := expovariate (1 / p.mean_srv) (p.u (s.rngPos + 1))
      let s1 : Sim := { s with rngPos := s.rngPos + 2, spawned := s.spawned + 1 }
      schedule (t + ia_time) (.src (i + 1)) (schedule t (.init i srv_time) s1)
    else s
  | .init idx srv =>
    -- packet, lines 37-46: arrv_time = env.now; waiting.append(1); the whole
    -- admission/service logic is guarded by `if trace:` in the source.
    let arrv := t
    let s1 : Sim := { s with waiting := s.waiting ++ [1] }
    if p.trace then
      if (s1.waiting.length : Int) > p.system_capacity then
        -- lines 41-43: waiting.pop(); loss.append(1); process ends.
        { s1 with waiting := s1.waiting.dropLast, loss := s1.loss ++ [1] }
      else
        -- line 46-47: server.request(); a free server grants through the
        -- event queue at the current time, a busy one enqueues FIFO.
        if s1.serverBusy then
          { s1 with serverQueue := s1.serverQueue ++ [(idx, arrv, srv)] }
        else
          schedule t (.grant idx arrv srv) { s1 with serverBusy := true }
    else s1
  | .grant idx arrv srv =>
    -- packet, lines 48-52: wait_time = env.now - arrv_time;
    -- wait_times.append(wait_time); yield env.timeout(service_time).
    let wait_time := t - arrv
    schedule (t + srv) (.done idx) { s with wait_times := s.wait_times ++ [wait_time] }
  | .done _ =>
    -- packet, lines 53-54: `if trace: waiting.pop()`, then the `with` block
    -- exits and releases the server, granting the head of the FIFO line (if
    -- any) at the current time; the process terminates (ghost `departed`).
    let w := if p.trace then s.waiting.dropLast else s.waiting
    match s.serverQueue with
    | [] => { s with waiting := w, departed := s.departed + 1, serverBusy := false }
    | (j, a, v) :: rest =>
      schedule t (.grant j a v) { s with waiting := w, departed := s.departed + 1, serverQueue := rest }

/-- One scheduler step: pop the earliest event (head of the sorted timeline),
advance the clock to its timestamp, run its continuation.  An empty queue is
a fixed point (`env.run()` has returned). -/
def step (p : Params) (s : Sim) : Sim :=
  match s.queue with
  | [] => s
  | (t, e) :: rest => stepEv p t e { s with now := t, queue := rest }

/-- Iterate the scheduler `n` times. -/
def stepN (p : Params) : Nat → Sim → Sim
  | 0, s => s
  | n + 1, s => stepN p n (step p s)

/-- Initial state of `env.run()`: empty statistics, free server, the single
pending event being the start of the `source` process at time 0. -/
def initSim : Sim :=
  { now := 0, queue := [(0, .src 0)], serverBusy := false, serverQueue := []
    wait_times := [], waiting := [], loss := [], rngPos := 0
    spawned := 0, departed := 0 }

/-- Bundle the arguments of `run_simulation` (seed already applied to the
environment generator `g`). -/
def mkP (g : Nat → Nat → ℚ) (mean_ia mean_srv : ℚ) (K : Int) (num : Int)
    (seed : Nat) (tr : Bool) : Params :=
  { mean_ia := mean_ia, mean_srv := mean_srv, system_capacity := K
    number := num.toNat, trace := tr, u := g seed }

/-- Fuel amply covering every event of a run (at most 1 + 4·number events are
ever dispatched; see `potential`). -/
def fuel (number : Nat) : Nat := 4 * number + 1

/-- The state in which `env.run()` returns, for the given arguments of
`run_simulation`. -/
def finalState (g : Nat → Nat → ℚ) (mean_ia mean_srv : ℚ) (K : Int) (num : Int)
    (seed : Nat) (tr : Bool) : Sim :=
  stepN (mkP g mean_ia mean_srv K num seed tr) (fuel num.toNat) initSim

/-- Outcome of `np.mean` on a list: NaN (here `none`) on an empty list, the
arithmetic mean otherwise. -/
def npMean (l : List ℚ) : Option ℚ :=
  if l = [] then none else some (l.sum / (l.length : ℚ))

/-- Transcription of `run_simulation` (src/mm1k.py lines 58-70): reseed the
global generator (discarding its incoming state `r0`), build the environment
and the empty statistics lists, run `source` to completion, and return
`(np.mean(wait_times), len(loss))` together with the generator state after
the run. -/
def run_simulation (g : Nat → Nat → ℚ) (r0 : PRNG) (mean_ia mean_srv : ℚ)
    (K : Int) (num : Int) (seed : Nat) (tr : Bool) :
    (Option ℚ × Nat) × PRNG :=
  let s := finalState g mean_ia mean_srv K num seed tr
  ((npMean s.wait_times, s.loss.length), ⟨g seed, s.rngPos⟩)

/-- The spec's external interface
`runSimulation(meanInterarrivalTime, meanServiceTime, systemCapacity,
numCustomers, randomSeed) → (meanWaitTime, lossCount)`: the core call with
tracing at its default (`trace=True`), fed a fresh generator. -/
def runSimulation (g : Nat → Nat → ℚ) (mean_ia mean_srv : ℚ) (K : Int)
    (num : Int) (seed : Nat) : Option ℚ × Nat :=
  (run_simulation g ⟨g seed, 0⟩ mean_ia mean_srv K num seed true).1

/-! Helpers for counting events of each kind in the timeline. -/

/-- Test for a pending `source` resumption. -/
def evIsSrc : ℚ × Ev → Bool := fun x => match x.2 with | .src _ => true | _ => false

/-- Test for a pending packet-process start. -/
def evIsArr : ℚ × Ev → Bool := fun x => match x.2 with | .init _ _ => true | _ => false

/-- Test for a pending server grant resumption. -/
def evIsGrant : ℚ × Ev → Bool := fun x => match x.2 with | .grant _ _ _ => true | _ => false

/-- Test for a pending service-completion resumption. -/
def evIsDone : ℚ × Ev → Bool := fun x => match x.2 with | .done _ => true | _ => false

@[simp] theorem evIsSrc_src (t : ℚ) (i : Nat) : evIsSrc (t, Ev.src i) = true := rfl
@[simp] theorem evIsSrc_init (t : ℚ) (i : Nat) (v : ℚ) :
    evIsSrc (t, Ev.init i v) = false := rfl
@[simp] theorem evIsSrc_grant (t : ℚ) (i : Nat) (a v : ℚ) :
    evIsSrc (t, Ev.grant i a v) = false := rfl
@[simp] theorem evIsSrc_done (t : ℚ) (i : Nat) : evIsSrc (t, Ev.done i) = false := rfl

@[simp] theorem evIsArr_src (t : ℚ) (i : Nat) : evIsArr (t, Ev.src i) = false := rfl
@[simp] theorem evIsArr_init (t : ℚ) (i : Nat) (v : ℚ) :
    evIsArr (t, Ev.init i v) = true := rfl
@[simp] theorem evIsArr_grant (t : ℚ) (i : Nat) (a v : ℚ) :
    evIsArr (t, Ev.grant i a v) = false := rfl
@[simp] theorem evIsArr_done (t : ℚ) (i : Nat) : evIsArr (t, Ev.done i) = false := rfl

@[simp] theorem evIsGrant_src (t : ℚ) (i : Nat) : evIsGrant (t, Ev.src i) = false := rfl
@[simp] theorem evIsGrant_init (t : ℚ) (i : Nat) (v : ℚ) :
    evIsGrant (t, Ev.init i v) = false := rfl
@[simp] theorem evIsGrant_grant (t : ℚ) (i : Nat) (a v : ℚ) :
    evIsGrant (t, Ev.grant i a v) = true := rfl
@[simp] theorem evIsGrant_done (t : ℚ) (i : Nat) : evIsGrant (t, Ev.done i) = false := rfl

@[simp] theorem evIsDone_src (t : ℚ) (i : Nat) : evIsDone (t, Ev.src i) = false := rfl
@[simp] theorem evIsDone_init (t : ℚ) (i : Nat) (v : ℚ) :
    evIsDone (t, Ev.init i v) = false := rfl
@[simp] theorem evIsDone_grant (t : ℚ) (i : Nat) (a v : ℚ) :
    evIsDone (t, Ev.grant i a v) = false := rfl
@[simp] theorem evIsDone_done (t : ℚ) (i : Nat) : evIsDone (t, Ev.done i) = true := rfl

theorem countP_insertEv (f : ℚ × Ev → Bool) (e : ℚ × Ev) (q : List (ℚ × Ev)) :
    (insertEv e q).countP f = q.countP f + (if f e then 1 else 0) := by
  induction q with
  | nil => simp [insertEv, List.countP_cons]
  | cons x xs ih =>
    simp only [insertEv]
    split
    · simp only [List.countP_cons] <;> omega
    · simp only [List.countP_cons, ih] <;> omega

theorem mem_insertEv {x e : ℚ × Ev} {q : List (ℚ × Ev)} :
    x ∈ insertEv e q ↔ x = e ∨ x ∈ q := by
  induction q with
  | nil => simp [insertEv]
  | cons y ys ih =>
    simp only [insertEv]
    split
    · simp only [List.mem_cons] <;> tauto
    · simp only [List.mem_cons, ih] <;> tauto

theorem step_nil (p : Params) (s : Sim) (h : s.queue = []) : step p s = s := by
  unfold step; rw [h]

theorem step_cons (p : Params) (s : Sim) (t : ℚ) (e : Ev) (rest : List (ℚ × Ev))
    (h : s.queue = (t, e) :: rest) :
    step p s = stepEv p t e { s with now := t, queue := rest } := by
  unfold step; rw [h]

theorem stepN_nil (p : Params) (n : Nat) (s : Sim) (h : s.queue = []) :
    stepN p n s = s := by
  induction n with
  | zero => rfl
  | succ k ih => simp only [stepN, step_nil p s h]; exact ih

/-! The arrival generator's invariant: the draw position is twice the number
of spawned customers, and the timeline holds exactly one pending `source`
resumption, carrying the spawn count, until all `number` customers are
spawned. Holds for both trace modes. -/

/-- Timeline half of the generator invariant: either a single `source`
resumption is pending, carrying the spawn count, or the generator has
finished after spawning everyone. -/
def SrcState (p : Params) (n : Nat) (q : List (ℚ × Ev)) : Prop :=
  (q.countP evIsSrc = 1 ∧ (∀ x ∈ q, evIsSrc x = true → x.2 = Ev.src n)
      ∧ n ≤ p.number)
    ∨ (q.countP evIsSrc = 0 ∧ n = p.number)

/-- Generator invariant (see `source`, src/mm1k.py lines 25-32). -/
def GenOK (p : Params) (s : Sim) : Prop :=
  s.rngPos = 2 * s.spawned ∧ SrcState p s.spawned s.queue

/-- Weight of a pending event: an upper bound on the number of dispatches it
can still cause (a `source` resumption at iteration `i` accounts for all
remaining spawns). -/
def wEv (number : Nat) : ℚ × Ev → Nat
  | (_, .src i) => 1 + 4 * (number - i)
  | (_, .init _ _) => 3
  | (_, .grant _ _ _) => 2
  | (_, .done _) => 1

/-- Total remaining work of a state; strictly decreases at every dispatch. -/
def potential (p : Params) (s : Sim) : Nat :=
  (s.queue.map (wEv p.number)).sum + 2 * s.serverQueue.length

theorem wEv_pos (number : Nat) (x : ℚ × Ev) : 1 ≤ wEv number x := by
  rcases x with ⟨t, e⟩; cases e <;> simp [wEv] <;> omega

theorem sum_map_insertEv (f : ℚ × Ev → Nat) (e : ℚ × Ev) (q : List (ℚ × Ev)) :
    ((insertEv e q).map f).sum = (q.map f).sum + f e := by
  induction q with
  | nil => simp [insertEv]
  | cons x xs ih =>
    simp only [insertEv]
    split
    · simp [List.sum_cons]; ring
    · simp only [List.map_cons, List.sum_cons, ih]; ring

theorem potential_step (p : Params) (s : Sim) (h : s.queue ≠ []) :
    potential p (step p s) + 1 ≤ potential p s := by
  rcases hq : s.queue with _ | ⟨⟨t, e⟩, rest⟩
  · exact absurd hq h
  rw [step_cons p s t e rest hq]
  cases e with
  | src i =>
    by_cases hi : i < p.number
    · simp only [stepEv, if_pos hi, potential, schedule, sum_map_insertEv, hq,
        List.map_cons, List.sum_cons, wEv]
      omega
    · simp only [stepEv, if_neg hi, potential, hq, List.map_cons, List.sum_cons, wEv]
      omega
  | init idx srv =>
    by_cases htr : p.trace
    · simp only [stepEv, if_pos htr]
      by_cases hcap : ((s.waiting ++ [1]).length : Int) > p.system_capacity
      · simp only [if_pos hcap, potential, hq, List.map_cons, List.sum_cons, wEv]
        omega
      · simp only [if_neg hcap]
        by_cases hb : s.serverBusy
        · simp [if_pos hb, potential, hq, wEv]
          omega
        · simp [if_neg hb, potential, schedule, sum_map_insertEv, hq, wEv]
          omega
    · simp [stepEv, if_neg htr, potential, hq, wEv]
      omega
  | grant idx arrv srv =>
    simp [stepEv, potential, schedule, sum_map_insertEv, hq, wEv]
    omega
  | done idx =>
    rcases hsq : s.serverQueue with _ | ⟨⟨j, a, v⟩, rest'⟩ <;>
      simp [stepEv, potential, schedule, sum_map_insertEv, hq, hsq, wEv] <;>
      omega

theorem queue_drains (p : Params) :
    ∀ n s, potential p s ≤ n → (stepN p n s).queue = [] := by
  intro n
  induction n with
  | zero =>
    intro s hs
    rcases hq : s.queue with _ | ⟨x, rest⟩
    · exact hq
    · exfalso
      have h1 := wEv_pos p.number x
      have : 1 ≤ potential p s := by
        simp only [potential, hq, List.map_cons, List.sum_cons]; omega
      omega
  | succ k ih =>
    intro s hs
    rcases hq : s.queue with _ | ⟨x, rest⟩
    · rw [stepN_nil p (k + 1) s hq]; exact hq
    · have hne : s.queue ≠ [] := by rw [hq]; exact List.cons_ne_nil x rest
      have hdec := potential_step p s hne
      exact ih (step p s) (by omega)

theorem genOK_initSim (p : Params) : GenOK p initSim := by
  refine ⟨rfl, Or.inl ⟨by simp [initSim, List.countP_cons, evIsSrc], ?_, Nat.zero_le _⟩⟩
  intro x hx _
  simp only [initSim, List.mem_singleton] at hx
  simp [hx, initSim]

theorem srcState_tail {p : Params} {n : Nat} {t : ℚ} {e : Ev}
    {rest : List (ℚ × Ev)} (hf : evIsSrc (t, e) = false)
    (h : SrcState p n ((t, e) :: rest)) : SrcState p n rest := by
  rcases h with ⟨hc, hall, hle⟩ | ⟨hc, hn⟩
  · left
    refine ⟨?_, fun x hx hsx => hall x (List.mem_cons_of_mem _ hx) hsx, hle⟩
    rwa [List.countP_cons_of_neg evIsSrc rest (by simp [hf])] at hc
  · right
    refine ⟨?_, hn⟩
    rwa [List.countP_cons_of_neg evIsSrc rest (by simp [hf])] at hc

theorem srcState_insert {p : Params} {n : Nat} {q : List (ℚ × Ev)}
    {e : ℚ × Ev} (hf : evIsSrc e = false) (h : SrcState p n q) :
    SrcState p n (insertEv e q) := by
  rcases h with ⟨hc, hall, hle⟩ | ⟨hc, hn⟩
  · left
    refine ⟨by rw [countP_insertEv, hf]; simpa using hc, ?_, hle⟩
    intro x hx hsx
    rcases mem_insertEv.1 hx with rfl | hx2
    · exact absurd hsx (by simp [hf])
    · exact hall x hx2 hsx
  · right
    exact ⟨by rw [countP_insertEv, hf]; simpa using hc, hn⟩

theorem genOK_step (p : Params) (s : Sim) (h : GenOK p s) : GenOK p (step p s) := by
  obtain ⟨hpos, hsrc⟩ := h
  rcases hq : s.queue with _ | ⟨⟨t, e⟩, rest⟩
  · rw [step_nil p s hq]; exact ⟨hpos, hsrc⟩
  rw [hq] at hsrc
  rw [step_cons p s t e rest hq]
  cases e with
  | src i =>
    rcases hsrc with ⟨hc, hall, hle⟩ | ⟨hc, hn⟩
    swap
    · exfalso
      rw [List.countP_cons_of_pos evIsSrc rest (by simp)] at hc
      omega
    have hi : i = s.spawned := by
      have := hall (t, Ev.src i) (List.mem_cons_self _ _) (by simp)
      simpa using this
    have hrest : rest.countP evIsSrc = 0 := by
      rw [List.countP_cons_of_pos evIsSrc rest (by simp)] at hc
      omega
    have hnos : ∀ x ∈ rest, ¬ evIsSrc x = true := List.countP_eq_zero.1 hrest
    by_cases hlt : i < p.number
    · simp only [stepEv, if_pos hlt]
      refine ⟨?_, Or.inl ⟨?_, ?_, ?_⟩⟩
      · show s.rngPos + 2 = 2 * (s.spawned + 1)
        omega
      · show (insertEv (_, Ev.src (i + 1)) (insertEv (_, Ev.init i _) rest)).countP
          evIsSrc = 1
        rw [countP_insertEv, countP_insertEv, hrest]
        simp [evIsSrc]
      · intro x hx hsx
        simp only [schedule_queue] at hx
        rcases mem_insertEv.1 hx with rfl | hx2
        · show Ev.src (i + 1) = Ev.src (s.spawned + 1)
          rw [hi]
        · rcases mem_insertEv.1 hx2 with rfl | hx3
          · exact absurd hsx (by simp [evIsSrc])
          · exact absurd hsx (hnos x hx3)
      · show s.spawned + 1 ≤ p.number
        omega
    · simp only [stepEv, if_neg hlt]
      refine ⟨hpos, Or.inr ⟨hrest, ?_⟩⟩
      show s.spawned = p.number
      omega
  | init idx srv =>
    have htail : SrcState p s.spawned rest := srcState_tail (by simp [evIsSrc]) hsrc
    by_cases htr : p.trace = true
    · simp only [stepEv, htr, ite_true]
      by_cases hcap : (((s.waiting ++ [1]).length : Int) > p.system_capacity)
      · rw [if_pos hcap]; exact ⟨hpos, htail⟩
      · rw [if_neg hcap]
        by_cases hb : s.serverBusy
        · rw [if_pos hb]; exact ⟨hpos, htail⟩
        · rw [if_neg hb]
          exact ⟨hpos, srcState_insert (by simp [evIsSrc]) htail⟩
    · simp only [Bool.not_eq_true] at htr
      simp only [stepEv, htr, Bool.false_eq_true, ite_false]
      exact ⟨hpos, htail⟩
  | grant idx arrv srv =>
    have htail : SrcState p s.spawned rest := srcState_tail (by simp [evIsSrc]) hsrc
    simp only [stepEv]
    exact ⟨hpos, srcState_insert (by simp [evIsSrc]) htail⟩
  | done idx =>
    have htail : SrcState p s.spawned rest := srcState_tail (by simp [evIsSrc]) hsrc
    simp only [stepEv]
    rcases hsq : s.serverQueue with _ | ⟨⟨j, a, v⟩, rest'⟩
    · exact ⟨hpos, htail⟩
    · exact ⟨hpos, srcState_insert (by simp [evIsSrc]) htail⟩

/-! The master invariant of a trace-enabled run (the core semantics).  All
counts are over the pending timeline: every spawned customer is accounted for
exactly once (lost, departed, or in flight); the server holds at most one
in-service customer, witnessed by a pending grant-or-completion event; the
FIFO line is empty whenever the server is free; one wait time has been
recorded per grant; the occupancy list `waiting` counts exactly the admitted
customers still in the system and never exceeds the capacity. -/
structure Inv (p : Params) (s : Sim) : Prop where
  conserve : s.spawned = s.loss.length + s.departed + s.queue.countP evIsArr
      + s.queue.countP evIsGrant + s.queue.countP evIsDone + s.serverQueue.length
  busyCount : s.queue.countP evIsGrant + s.queue.countP evIsDone
      = (if s.serverBusy then 1 else 0)
  idleLine : s.serverBusy = false → s.serverQueue = []
  waits : s.wait_times.length = s.departed + s.queue.countP evIsDone
  occupancy : s.waiting.length = s.serverQueue.length + s.queue.countP evIsGrant
      + s.queue.countP evIsDone
  occBound : (s.waiting.length : Int) ≤ max p.system_capacity 0

theorem inv_initSim (p : Params) : Inv p initSim := by
  refine ⟨?_, ?_, ?_, ?_, ?_, ?_⟩ <;>
    simp [initSim, List.countP_cons, evIsArr, evIsGrant, evIsDone]

theorem inv_step (p : Params) (htr : p.trace = true) (s : Sim) (h : Inv p s) :
    Inv p (step p s) := by
  obtain ⟨hcon, hbc, hil, hwt, hocc, hob⟩ := h
  rcases hq : s.queue with _ | ⟨⟨t, e⟩, rest⟩
  · rw [step_nil p s hq]; exact ⟨hcon, hbc, hil, hwt, hocc, hob⟩
  rw [hq] at hcon hbc hwt hocc
  simp only [List.countP_cons] at hcon hbc hwt hocc
  rw [step_cons p s t e rest hq]
  cases e with
  | src i =>
    simp at hcon hbc hwt hocc
    by_cases hi : i < p.number
    · simp only [stepEv, if_pos hi]
      refine ⟨?_, ?_, hil, ?_, ?_, hob⟩ <;> simp [countP_insertEv] <;> omega
    · simp only [stepEv, if_neg hi]
      exact ⟨by simp <;> omega, by simp <;> omega, hil, by simp <;> omega,
        by simp <;> omega, hob⟩
  | init idx srv =>
    simp at hcon hbc hwt hocc
    simp only [stepEv]
    rw [if_pos htr]
    by_cases hcap : (((s.waiting ++ [1]).length : Int) > p.system_capacity)
    · rw [if_pos hcap]
      refine ⟨?_, ?_, hil, ?_, ?_, ?_⟩
      · simp <;> omega
      · simp <;> omega
      · simp <;> omega
      · simp <;> omega
      · have hd : (s.waiting ++ [1]).dropLast = s.waiting := by simp
        show (((s.waiting ++ [1]).dropLast.length : Nat) : Int)
          ≤ max p.system_capacity 0
        rw [hd]; exact hob
    · rw [if_neg hcap]
      simp at hcap
      by_cases hb : s.serverBusy = true
      · rw [if_pos hb]
        refine ⟨?_, ?_, ?_, ?_, ?_, ?_⟩
        · simp <;> omega
        · simp <;> omega
        · simp [hb]
        · simp <;> omega
        · simp <;> omega
        · simp <;> omega
      · rw [if_neg hb]
        rw [if_neg hb] at hbc
        refine ⟨?_, ?_, ?_, ?_, ?_, ?_⟩
        · simp [countP_insertEv] <;> omega
        · simp [countP_insertEv] <;> omega
        · simp
        · simp [countP_insertEv] <;> omega
        · simp [countP_insertEv] <;> omega
        · simp <;> omega
  | grant idx arrv srv =>
    simp at hcon hbc hwt hocc
    simp only [stepEv]
    refine ⟨?_, ?_, hil, ?_, ?_, hob⟩ <;> simp [countP_insertEv] <;> omega
  | done idx =>
    simp at hcon hbc hwt hocc
    have hsb : s.serverBusy = true := by
      rcases hsb2 : s.serverBusy
      · rw [hsb2] at hbc; simp at hbc
      · rfl
    rw [if_pos hsb] at hbc
    have hwl : 1 ≤ s.waiting.length := by omega
    simp only [stepEv]
    rw [if_pos htr]
    rcases hsq : s.serverQueue with _ | ⟨⟨j, a, v⟩, rest'⟩
    · simp [hsq] at hcon hocc
      refine ⟨?_, ?_, ?_, ?_, ?_, ?_⟩
      · simp <;> omega
      · show List.countP evIsGrant rest + List.countP evIsDone rest = 0
        omega
      · simp [hsq]
      · simp <;> omega
      · simp <;> omega
      · have hd : s.waiting.dropLast.length = s.waiting.length - 1 := by simp
        show ((s.waiting.dropLast.length : Nat) : Int) ≤ max p.system_capacity 0
        rw [hd]
        have hKM : (((s.waiting.length - 1 : Nat) : Nat) : Int)
            ≤ ((s.waiting.length : Nat) : Int) := by omega
        exact le_trans hKM hob
    · simp [hsq] at hcon hocc
      refine ⟨?_, ?_, ?_, ?_, ?_, ?_⟩
      · simp [countP_insertEv] <;> omega
      · simp [countP_insertEv, hsb] <;> omega
      · simp [hsb]
      · simp [countP_insertEv] <;> omega
      · simp [countP_insertEv] <;> omega
      · simp <;> omega

theorem inv_stepN (p : Params) (htr : p.trace = true) (n : Nat) (s : Sim)
    (h : Inv p s) : Inv p (stepN p n s) := by
  induction n generalizing s with
  | zero => exact h
  | succ k ih => exact ih (step p s) (inv_step p htr s h)

theorem genOK_stepN (p : Params) (n : Nat) (s : Sim) (h : GenOK p s) :
    GenOK p (stepN p n s) := by
  induction n generalizing s with
  | zero => exact h
  | succ k ih => exact ih (step p s) (genOK_step p s h)

theorem finalState_eq (g : Nat → Nat → ℚ) (ia srv : ℚ) (K : Int) (num : Int)
    (seed : Nat) (tr : Bool) :
    finalState g ia srv K num seed tr
      = stepN (mkP g ia srv K num seed tr) (fuel num.toNat) initSim := rfl

theorem potential_initSim (p : Params) : potential p initSim = 4 * p.number + 1 := by
  simp only [potential, initSim, List.map_cons, List.map_nil, List.sum_cons,
    List.sum_nil, List.length_nil, wEv]
  omega

theorem finalState_queue_nil (g : Nat → Nat → ℚ) (ia srv : ℚ) (K : Int)
    (num : Int) (seed : Nat) (tr : Bool) :
    (finalState g ia srv K num seed tr).queue = [] := by
  apply queue_drains
  rw [potential_initSim]
  simp [mkP, fuel]

theorem final_genOK (g : Nat → Nat → ℚ) (ia srv : ℚ) (K : Int) (num : Int)
    (seed : Nat) (tr : Bool) :
    GenOK (mkP g ia srv K num seed tr) (finalState g ia srv K num seed tr) :=
  genOK_stepN _ _ _ (genOK_initSim _)

theorem final_spawned (g : Nat → Nat → ℚ) (ia srv : ℚ) (K : Int) (num : Int)
    (seed : Nat) (tr : Bool) :
    (finalState g ia srv K num seed tr).spawned = num.toNat := by
  obtain ⟨hpos, hsrc⟩ := final_genOK g ia srv K num seed tr
  rw [finalState_queue_nil g ia srv K num seed tr] at hsrc
  rcases hsrc with ⟨hc, _, _⟩ | ⟨_, hn⟩
  · simp at hc
  · exact hn

theorem final_inv (g : Nat → Nat → ℚ) (ia srv : ℚ) (K : Int) (num : Int)
    (seed : Nat) :
    Inv (mkP g ia srv K num seed true) (finalState g ia srv K num seed true) :=
  inv_stepN _ rfl _ _ (inv_initSim _)

/-- Accounting at the end of a trace-enabled run: everyone spawned is lost or
departed, one wait was recorded per departure, the server is free and its
line empty. -/
theorem final_accounting (g : Nat → Nat → ℚ) (ia srv : ℚ) (K : Int)
    (num : Int) (seed : Nat) :
    (finalState g ia srv K num seed true).loss.length
        + (finalState g ia srv K num seed true).departed = num.toNat
      ∧ (finalState g ia srv K num seed true).wait_times.length
        = (finalState g ia srv K num seed true).departed := by
  obtain ⟨hcon, hbc, hil, hwt, hocc, hob⟩ := final_inv g ia srv K num seed
  have hq := finalState_queue_nil g ia srv K num seed true
  have hsp := final_spawned g ia srv K num seed true
  rw [hq] at hcon hbc hwt
  simp only [List.countP_nil] at hcon hbc hwt
  have hbf : (finalState g ia srv K num seed true).serverBusy = false := by
    rcases hb2 : (finalState g ia srv K num seed true).serverBusy
    · rfl
    · rw [hb2] at hbc; simp at hbc
  have hline := hil hbf
  rw [hline] at hcon
  simp at hcon
  omega

/-! Runs with capacity at most zero (trace enabled) drop every customer at
arrival: the server is never engaged and no wait time is recorded. -/

/-- Invariant of a trace-enabled run with `system_capacity ≤ 0`. -/
structure InvZero (p : Params) (s : Sim) : Prop where
  conserve : s.spawned = s.loss.length + s.queue.countP evIsArr
  pureArr : ∀ x ∈ s.queue, evIsGrant x = false ∧ evIsDone x = false
  busy : s.serverBusy = false
  line : s.serverQueue = []
  waits : s.wait_times = []
  emptyW : s.waiting = []
  dep : s.departed = 0

theorem invZero_initSim (p : Params) : InvZero p initSim := by
  refine ⟨by simp [initSim], ?_, rfl, rfl, rfl, rfl, rfl⟩
  intro x hx
  simp only [initSim, List.mem_singleton] at hx
  simp [hx]

theorem invZero_step (p : Params) (htr : p.trace = true)
    (hK : p.system_capacity ≤ 0) (s : Sim) (h : InvZero p s) :
    InvZero p (step p s) := by
  obtain ⟨hcon, hpa, hbu, hli, hwa, hwg, hdp⟩ := h
  rcases hq : s.queue with _ | ⟨⟨t, e⟩, rest⟩
  · rw [step_nil p s hq]; exact ⟨hcon, hpa, hbu, hli, hwa, hwg, hdp⟩
  rw [hq] at hcon hpa
  have hpa2 : ∀ x ∈ rest, evIsGrant x = false ∧ evIsDone x = false :=
    fun x hx => hpa x (List.mem_cons_of_mem _ hx)
  rw [step_cons p s t e rest hq]
  cases e with
  | src i =>
    simp only [List.countP_cons] at hcon
    simp at hcon
    by_cases hi : i < p.number
    · simp only [stepEv, if_pos hi]
      refine ⟨by simp [countP_insertEv] <;> omega, ?_, hbu, hli, hwa, hwg, hdp⟩
      intro x hx
      simp only [schedule_queue] at hx
      rcases mem_insertEv.1 hx with rfl | hx2
      · simp
      · rcases mem_insertEv.1 hx2 with rfl | hx3
        · simp
        · exact hpa2 x hx3
    · simp only [stepEv, if_neg hi]
      exact ⟨by simp at hcon ⊢ <;> omega, hpa2, hbu, hli, hwa, hwg, hdp⟩
  | init idx srv =>
    simp only [List.countP_cons] at hcon
    simp at hcon
    simp only [stepEv]
    rw [if_pos htr]
    have hcap : (((s.waiting ++ [1]).length : Int) > p.system_capacity) := by
      rw [hwg]; simp; omega
    rw [if_pos hcap]
    refine ⟨?_, hpa2, hbu, hli, hwa, ?_, hdp⟩
    · simp <;> omega
    · show (s.waiting ++ [1]).dropLast = []
      rw [hwg]
      rfl
  | grant idx arrv srv =>
    exact absurd ((hpa (t, Ev.grant idx arrv srv) (List.mem_cons_self _ _)).1)
      (by simp)
  | done idx =>
    exact absurd ((hpa (t, Ev.done idx) (List.mem_cons_self _ _)).2) (by simp)

theorem invZero_stepN (p : Params) (htr : p.trace = true)
    (hK : p.system_capacity ≤ 0) (n : Nat) (s : Sim) (h : InvZero p s) :
    InvZero p (stepN p n s) := by
  induction n generalizing s with
  | zero => exact h
  | succ k ih => exact ih (step p s) (invZero_step p htr hK s h)

/-- End of a trace-enabled run with capacity at most 0: everyone is lost and
no wait time was collected. -/
theorem final_capacity_nonpos (g : Nat → Nat → ℚ) (ia srv : ℚ) (K : Int)
    (num : Int) (seed : Nat) (hK : K ≤ 0) :
    (finalState g ia srv K num seed true).loss.length = num.toNat
      ∧ (finalState g ia srv K num seed true).wait_times = [] := by
  have h := invZero_stepN (mkP g ia srv K num seed true) rfl hK
    (fuel num.toNat) initSim (invZero_initSim _)
  have hq := finalState_queue_nil g ia srv K num seed true
  have hsp := final_spawned g ia srv K num seed true
  rw [finalState_eq] at hq hsp ⊢
  obtain ⟨hcon, _, _, _, hwa, _, _⟩ := h
  rw [hq] at hcon
  simp only [List.countP_nil] at hcon
  exact ⟨by omega, hwa⟩

/-! Runs with tracing disabled skip the whole admission/service logic: each
customer only appends to the occupancy list and terminates. -/

/-- Invariant of a run with `trace = false`. -/
structure InvFalse (p : Params) (s : Sim) : Prop where
  conserve : s.spawned = s.waiting.length + s.queue.countP evIsArr
  pureArr : ∀ x ∈ s.queue, evIsGrant x = false ∧ evIsDone x = false
  busy : s.serverBusy = false
  line : s.serverQueue = []
  waits : s.wait_times = []
  loss0 : s.loss = []
  dep : s.departed = 0

theorem invFalse_initSim (p : Params) : InvFalse p initSim := by
  refine ⟨by simp [initSim], ?_, rfl, rfl, rfl, rfl, rfl⟩
  intro x hx
  simp only [initSim, List.mem_singleton] at hx
  simp [hx]

theorem invFalse_step (p : Params) (htr : p.trace = false) (s : Sim)
    (h : InvFalse p s) : InvFalse p (step p s) := by
  obtain ⟨hcon, hpa, hbu, hli, hwa, hlo, hdp⟩ := h
  rcases hq : s.queue with _ | ⟨⟨t, e⟩, rest⟩
  · rw [step_nil p s hq]; exact ⟨hcon, hpa, hbu, hli, hwa, hlo, hdp⟩
  rw [hq] at hcon hpa
  have hpa2 : ∀ x ∈ rest, evIsGrant x = false ∧ evIsDone x = false :=
    fun x hx => hpa x (List.mem_cons_of_mem _ hx)
  rw [step_cons p s t e rest hq]
  cases e with
  | src i =>
    simp only [List.countP_cons] at hcon
    simp at hcon
    by_cases hi : i < p.number
    · simp only [stepEv, if_pos hi]
      refine ⟨by simp [countP_insertEv] <;> omega, ?_, hbu, hli, hwa, hlo, hdp⟩
      intro x hx
      simp only [schedule_queue] at hx
      rcases mem_insertEv.1 hx with rfl | hx2
      · simp
      · rcases mem_insertEv.1 hx2 with rfl | hx3
        · simp
        · exact hpa2 x hx3
    · simp only [stepEv, if_neg hi]
      exact ⟨by simp at hcon ⊢ <;> omega, hpa2, hbu, hli, hwa, hlo, hdp⟩
  | init idx srv =>
    simp only [List.countP_cons] at hcon
    simp at hcon
    simp only [stepEv]
    rw [if_neg (by rw [htr]; simp : ¬ p.trace = true)]
    refine ⟨by simp <;> omega, hpa2, hbu, hli, hwa, hlo, hdp⟩
  | grant idx arrv srv =>
    exact absurd ((hpa (t, Ev.grant idx arrv srv) (List.mem_cons_self _ _)).1)
      (by simp)
  | done idx =>
    exact absurd ((hpa (t, Ev.done idx) (List.mem_cons_self _ _)).2) (by simp)

theorem invFalse_stepN (p : Params) (htr : p.trace = false) (n : Nat) (s : Sim)
    (h : InvFalse p s) : InvFalse p (stepN p n s) := by
  induction n generalizing s with
  | zero => exact h
  | succ k ih => exact ih (step p s) (invFalse_step p htr s h)

/-- End of a run with tracing disabled: no loss, no wait time, and the
occupancy list holds one entry per generated customer (never decremented). -/
theorem final_trace_off (g : Nat → Nat → ℚ) (ia srv : ℚ) (K : Int)
    (num : Int) (seed : Nat) :
    (finalState g ia srv K num seed false).loss = []
      ∧ (finalState g ia srv K num seed false).wait_times = []
      ∧ (finalState g ia srv K num seed false).waiting.length = num.toNat := by
  have h := invFalse_stepN (mkP g ia srv K num seed false) rfl
    (fuel num.toNat) initSim (invFalse_initSim _)
  have hq := finalState_queue_nil g ia srv K num seed false
  have hsp := final_spawned g ia srv K num seed false
  rw [finalState_eq] at hq hsp ⊢
  obtain ⟨hcon, _, _, _, hwa, hlo, _⟩ := h
  rw [hq] at hcon
  simp only [List.countP_nil] at hcon
  exact ⟨hlo, hwa, by omega⟩

/-! Concrete inputs used to evaluate the model on specific runs. -/

/-- An arbitrary incoming generator state (immediately discarded by the
reseed in `run_simulation`). -/
def r0def : PRNG := ⟨fun _ => 0, 0⟩

/-- Seeded stream all of whose unit-exponential draws are 1. -/
def gOne : Nat → Nat → ℚ := fun _ _ => 1

/-- Seeded stream realizing arrivals at times 0, 1/2, 2, 7/2, 18/5 with
service requirements 1, 100, 1, 1/20, 1 (draw order per customer: gap,
service). -/
def gPath : Nat → Nat → ℚ :=
  fun _ k => [(1 : ℚ) / 2, 1, 3 / 2, 100, 3 / 2, 1, 1 / 10, 1 / 20, 1, 1].getD k 1

/-- Seeded stream whose first draw (interarrival gap) is 5 and all others 1. -/
def gGap : Nat → Nat → ℚ := fun _ k => if k = 0 then 5 else 1

/-- State after `n` dispatches of a run of `run_simulation` with the given
arguments. -/
def reachState (g : Nat → Nat → ℚ) (ia srv : ℚ) (K : Int) (num : Int)
    (seed : Nat) (tr : Bool) (n : Nat) : Sim :=
  stepN (mkP g ia srv K num seed tr) n initSim

/-- A state whose next event grants the server to customer 0 (arrived at
time 1, service requirement 2) at time 3. -/
def sGrant : Sim :=
  { now := 1, queue := [(3, Ev.grant 0 1 2)], serverBusy := true
    serverQueue := [], wait_times := [], waiting := [1], loss := []
    rngPos := 2, spawned := 1, departed := 0 }

/-! The claims. -/

/-- C1: the claim states that admission/blocking evaluation and loss
recording happen for every arriving customer regardless of the trace flag,
so `run_simulation` returns the same statistics either way and the occupancy
decrement on departure is unconditional.  The code violates this: the whole
admission/service block of `packet` sits under `if trace:` (src/mm1k.py line
39), as does the departure decrement (line 53).  At capacity 0 with one
customer, tracing on yields one loss, tracing off yields none; at capacity 1
the departed customer is removed from `waiting` only when tracing is on. -/
theorem C1_trace_gates_admission :
    (run_simulation gOne r0def 1 1 0 1 0 true).1.2 = 1
    ∧ (run_simulation gOne r0def 1 1 0 1 0 false).1.2 = 0
    ∧ (finalState gOne 1 1 1 1 0 true).waiting = []
    ∧ (finalState gOne 1 1 1 1 0 false).waiting = [1] := by
  refine ⟨?_, ?_, ?_, ?_⟩ <;>
    norm_num [run_simulation, finalState, stepN, step, stepEv, initSim, mkP,
      fuel, insertEv, schedule, expovariate, gOne, r0def]

/-- C2: with `systemCapacity = 0` and `numCustomers ≥ 1`, every arrival is
dropped: `runSimulation` returns `lossCount = numCustomers` and an undefined
(NaN, here `none`) mean waiting time since no wait is ever recorded. -/
theorem C2_capacity_zero_drops_all (g : Nat → Nat → ℚ) (ia srv : ℚ)
    (num : Nat) (seed : Nat) (hnum : 1 ≤ num) :
    runSimulation g ia srv 0 (num : Int) seed = (none, num) := by
  obtain ⟨hl, hw⟩ := final_capacity_nonpos g ia srv 0 (num : Int) seed (le_refl 0)
  show (npMean (finalState g ia srv 0 (num : Int) seed true).wait_times,
    (finalState g ia srv 0 (num : Int) seed true).loss.length) = (none, num)
  rw [hw, hl]
  simp [npMean]

/-- C2 witness: the theorem applied at capacity 0, one customer, unit
draws. -/
theorem C2_capacity_zero_drops_all_witness :
    runSimulation gOne 1 1 0 (1 : Int) 0 = (none, 1) :=
  C2_capacity_zero_drops_all gOne 1 1 1 0 (by norm_num)

/-- C3: determinism — two calls of `run_simulation` with identical
parameters and seed return bit-identical results whatever the incoming
global generator state, because each call reseeds the generator first
(src/mm1k.py line 60). -/
theorem C3_determinism (g : Nat → Nat → ℚ) (r1 r2 : PRNG) (ia srv : ℚ)
    (K num : Int) (seed : Nat) (tr : Bool) :
    run_simulation g r1 ia srv K num seed tr
      = run_simulation g r2 ia srv K num seed tr := rfl

/-- C4: conservation — the returned loss count plus the number of customers
that complete service (reach the terminal Departed state, counted by the
ghost field `departed`) equals `numCustomers`. -/
theorem C4_conservation (g : Nat → Nat → ℚ) (ia srv : ℚ) (K : Int)
    (num : Nat) (seed : Nat) :
    (runSimulation g ia srv K (num : Int) seed).2
      + (finalState g ia srv K (num : Int) seed true).departed = num := by
  have h := (final_accounting g ia srv K (num : Int) seed).1
  show (finalState g ia srv K (num : Int) seed true).loss.length
    + (finalState g ia srv K (num : Int) seed true).departed = num
  simpa using h

/-- C5 counterexample: the claim asserts loss monotonicity in capacity for a
fixed seed, yet on the sample path of `gPath` (arrivals 0, 1/2, 2, 7/2,
18/5; services 1, 100, 1, 1/20, 1) capacity 1 loses one customer while
capacity 2 loses two: the extra buffer admits the 100-long job, which blocks
two later short arrivals that capacity 1 would have served. -/
theorem C5_monotonicity_counterexample :
    (runSimulation gPath 1 1 1 5 0).2 = 1
    ∧ (runSimulation gPath 1 1 2 5 0).2 = 2
    ∧ (runSimulation gPath 1 1 1 5 0).2 < (runSimulation gPath 1 1 2 5 0).2 := by
  refine ⟨?_, ?_, ?_⟩ <;>
    norm_num [runSimulation, run_simulation, finalState, stepN, step, stepEv,
      initSim, mkP, fuel, insertEv, schedule, expovariate, gPath, npMean]

/-- C5 amended: in general increasing the capacity can increase the loss
count (see the counterexample); the monotonicity does hold from capacity
`K1 = 0`, where every customer is lost: for `0 = K1 ≤ K2` the loss count at
capacity `K2` is at most the loss count at capacity `K1`. -/
theorem C5_amended_monotone_from_zero (g : Nat → Nat → ℚ) (ia srv : ℚ)
    (num : Nat) (seed : Nat) (K1 K2 : Int) (h1 : K1 = 0) (h12 : K1 ≤ K2) :
    (runSimulation g ia srv K2 (num : Int) seed).2
      ≤ (runSimulation g ia srv K1 (num : Int) seed).2 := by
  subst h1
  have hz := (final_capacity_nonpos g ia srv 0 (num : Int) seed (le_refl 0)).1
  have hc := (final_accounting g ia srv K2 (num : Int) seed).1
  show (finalState g ia srv K2 (num : Int) seed true).loss.length
    ≤ (finalState g ia srv 0 (num : Int) seed true).loss.length
  rw [hz]
  omega

/-- C5 witness for the amended statement: capacity 0 versus capacity 3 with
two customers and unit draws. -/
theorem C5_amended_monotone_from_zero_witness :
    (runSimulation gOne 1 1 3 (2 : Int) 0).2
      ≤ (runSimulation gOne 1 1 0 (2 : Int) 0).2 :=
  C5_amended_monotone_from_zero gOne 1 1 2 0 0 3 rfl (by norm_num)

/-- C6: occupancy invariant of the trace-enabled core — at every reachable
point of a run the occupancy list holds at most `K` customers; while an
admission check runs, the tentatively counted arrival brings it to at most
`K + 1`; and an arrival that proceeds to wait or be served sees occupancy
(itself included) at most `K`, otherwise it is dropped on the spot. -/
theorem C6_occupancy_invariant (g : Nat → Nat → ℚ) (ia srv : ℚ) (K : Int)
    (num : Int) (seed : Nat) (n : Nat) (hK : 0 ≤ K) :
    ((reachState g ia srv K num seed true n).waiting.length : Int) ≤ K
    ∧ (∀ t idx v rest,
        (reachState g ia srv K num seed true n).queue
          = (t, Ev.init idx v) :: rest →
        (((reachState g ia srv K num seed true n).waiting.length + 1 : Int)
            ≤ K + 1
          ∧ ((((reachState g ia srv K num seed true n).waiting.length + 1 : Int)
              ≤ K)
            ∨ (step (mkP g ia srv K num seed true)
                  (reachState g ia srv K num seed true n)).loss
                = (reachState g ia srv K num seed true n).loss ++ [1]))) := by
  obtain ⟨_, _, _, _, _, hob⟩ :=
    inv_stepN (mkP g ia srv K num seed true) rfl n initSim (inv_initSim _)
  have hob2 : ((reachState g ia srv K num seed true n).waiting.length : Int)
      ≤ K := by
    have hm : max (mkP g ia srv K num seed true).system_capacity 0 = K := by
      show max K 0 = K
      omega
    rw [hm] at hob
    exact hob
  refine ⟨hob2, ?_⟩
  intro t idx v rest hq
  refine ⟨by omega, ?_⟩
  by_cases hcap :
      (((reachState g ia srv K num seed true n).waiting.length + 1 : Int) ≤ K)
  · exact Or.inl hcap
  · right
    rw [step_cons _ _ t _ rest hq]
    simp only [stepEv]
    rw [if_pos (show (mkP g ia srv K num seed true).trace = true from rfl)]
    have hcond : (((reachState g ia srv K num seed true n).waiting
        ++ [1]).length : Int) > (mkP g ia srv K num seed true).system_capacity := by
      show (((reachState g ia srv K num seed true n).waiting
        ++ [1]).length : Int) > K
      simp
      omega
    rw [if_pos hcond]

/-- C6 witness: the occupancy bound applied after two dispatches of a
capacity-0 single-customer run. -/
theorem C6_occupancy_invariant_witness :
    ((reachState gOne 1 1 0 1 0 true 2).waiting.length : Int) ≤ 0 :=
  (C6_occupancy_invariant gOne 1 1 0 1 0 2 (le_refl 0)).1

/-- C7: wait-time recording — when a grant event is dispatched, exactly one
wait time equal to the current virtual time minus the customer's arrival
time is appended, and the service timeout is scheduled in the same dispatch;
a dropped customer leaves the wait times, the server slot and the FIFO line
untouched and schedules nothing; globally one wait or one loss is recorded
per customer. -/
theorem C7_wait_time_recording (g : Nat → Nat → ℚ) (ia srv : ℚ) (K : Int)
    (num : Nat) (seed : Nat) :
    (∀ (s : Sim) (t : ℚ) (idx : Nat) (arrv v : ℚ) (rest : List (ℚ × Ev)),
      s.queue = (t, Ev.grant idx arrv v) :: rest →
      (step (mkP g ia srv K (num : Int) seed true) s).wait_times
          = s.wait_times ++ [t - arrv]
        ∧ (step (mkP g ia srv K (num : Int) seed true) s).queue
          = insertEv (t + v, Ev.done idx) rest)
    ∧ (∀ (s : Sim) (t : ℚ) (idx : Nat) (v : ℚ) (rest : List (ℚ × Ev)),
      s.queue = (t, Ev.init idx v) :: rest →
      ((s.waiting.length + 1 : Int) > K) →
      (step (mkP g ia srv K (num : Int) seed true) s).wait_times = s.wait_times
        ∧ (step (mkP g ia srv K (num : Int) seed true) s).loss = s.loss ++ [1]
        ∧ (step (mkP g ia srv K (num : Int) seed true) s).serverBusy
          = s.serverBusy
        ∧ (step (mkP g ia srv K (num : Int) seed true) s).serverQueue
          = s.serverQueue
        ∧ (step (mkP g ia srv K (num : Int) seed true) s).queue = rest)
    ∧ (finalState g ia srv K (num : Int) seed true).wait_times.length
        + (finalState g ia srv K (num : Int) seed true).loss.length = num := by
  refine ⟨?_, ?_, ?_⟩
  · intro s t idx arrv v rest hq
    rw [step_cons _ _ t _ rest hq]
    simp only [stepEv]
    exact ⟨rfl, rfl⟩
  · intro s t idx v rest hq hcap
    rw [step_cons _ _ t _ rest hq]
    simp only [stepEv]
    rw [if_pos
      (show (mkP g ia srv K (num : Int) seed true).trace = true from rfl)]
    have hcond : ((s.waiting ++ [1]).length : Int)
        > (mkP g ia srv K (num : Int) seed true).system_capacity := by
      show ((s.waiting ++ [1]).length : Int) > K
      simp
      omega
    rw [if_pos hcond]
    exact ⟨rfl, rfl, rfl, rfl, rfl⟩
  · obtain ⟨h1, h2⟩ := final_accounting g ia srv K (num : Int) seed
    simp at h1
    omega

/-- C7 witness: the grant clause applied to a concrete state whose next
event grants the server to a customer that arrived at time 1, at time 3,
with service requirement 2. -/
theorem C7_wait_time_recording_witness :
    (step (mkP gOne 1 1 1 (1 : Int) 0 true) sGrant).wait_times = [] ++ [3 - 1]
    ∧ (step (mkP gOne 1 1 1 (1 : Int) 0 true) sGrant).queue
      = insertEv (3 + 2, Ev.done 0) [] :=
  (C7_wait_time_recording gOne 1 1 1 1 0).1 sGrant 3 0 1 2 [] rfl

/-- C8 counterexample: the claim says the generator terminates after the
N-th spawn with no trailing wait, but `source` yields a timeout after every
spawn including the last (src/mm1k.py line 32).  With one customer, gap 5
and service 1, the sole customer has departed by virtual time 1 after four
dispatches, yet the run only ends at time 5 when the source's trailing
timeout fires. -/
theorem C8_trailing_wait_counterexample :
    (reachState gGap 1 1 1 1 0 true 4).departed = 1
    ∧ (reachState gGap 1 1 1 1 0 true 4).now = 1
    ∧ (reachState gGap 1 1 1 1 0 true 5).now = 5
    ∧ (reachState gGap 1 1 1 1 0 true 5).queue = [] := by
  refine ⟨?_, ?_, ?_, ?_⟩ <;>
    norm_num [reachState, stepN, step, stepEv, initSim, mkP, insertEv,
      schedule, expovariate, gGap]

/-- C8 amended: the arrival generator spawns exactly N customers; at each
`source` dispatch with i < N the generator position is 2i, the interarrival
gap is drawn first (draw 2i) and the service duration second (draw 2i + 1),
customer i is spawned at the current time, and the generator suspends for
the gap after every spawn — including the N-th, so it terminates only after
a trailing gap rather than immediately after the last spawn. -/
theorem C8_generator_amended (g : Nat → Nat → ℚ) (ia srv : ℚ) (K : Int)
    (num : Int) (seed : Nat) (tr : Bool) :
    (finalState g ia srv K num seed tr).spawned = num.toNat
    ∧ (∀ (n : Nat) (t : ℚ) (i : Nat) (rest : List (ℚ × Ev)),
        (reachState g ia srv K num seed tr n).queue = (t, Ev.src i) :: rest →
        i < num.toNat →
        (reachState g ia srv K num seed tr n).rngPos = 2 * i
        ∧ step (mkP g ia srv K num seed tr)
              (reachState g ia srv K num seed tr n)
          = schedule (t + expovariate (1 / ia) (g seed (2 * i)))
              (Ev.src (i + 1))
              (schedule t
                (Ev.init i (expovariate (1 / srv) (g seed (2 * i + 1))))
                { reachState g ia srv K num seed tr n with
                    now := t, queue := rest, rngPos := 2 * i + 2
                    spawned := i + 1 })) := by
  refine ⟨final_spawned g ia srv K num seed tr, ?_⟩
  intro n t i rest hq hi
  have hgen : GenOK (mkP g ia srv K num seed tr)
      (reachState g ia srv K num seed tr n) :=
    genOK_stepN _ n initSim (genOK_initSim _)
  obtain ⟨hpos, hsrc⟩ := hgen
  rcases hsrc with ⟨hc, hall, _⟩ | ⟨hc, _⟩
  swap
  · exfalso
    rw [hq, List.countP_cons_of_pos evIsSrc rest (by simp)] at hc
    omega
  have hi2 : i = (reachState g ia srv K num seed tr n).spawned := by
    have := hall (t, Ev.src i) (by rw [hq]; exact List.mem_cons_self _ _)
      (by simp)
    simpa using this
  have hpos2 : (reachState g ia srv K num seed tr n).rngPos = 2 * i := by
    omega
  refine ⟨hpos2, ?_⟩
  rw [step_cons _ _ t _ rest hq]
  simp only [stepEv, mkP]
  rw [if_pos (show i < num.toNat from hi)]
  rw [hpos2, ← hi2]

/-- C8 witness: the amended statement applied at the very first dispatch of
a single-customer run (generator position 0 before the first spawn). -/
theorem C8_generator_amended_witness :
    (reachState gOne 1 1 1 (1 : Int) 0 true 0).rngPos = 2 * 0 :=
  ((C8_generator_amended gOne 1 1 1 1 0 true).2 0 0 0 [] rfl (by norm_num)).1

/-- C9: the claim says a call with a non-positive mean, negative capacity or
negative customer count surfaces an InvalidParameter error before any event
is scheduled and produces no statistics.  The code performs no validation
(src/mm1k.py lines 58-70): with `num_packets = -1` the `range` loop is
empty, the run completes normally, and `(np.mean([]), 0)` — a NaN mean and
zero losses — is returned to the caller. -/
theorem C9_no_parameter_validation (g : Nat → Nat → ℚ) (r1 : PRNG)
    (ia srv : ℚ) (K : Int) (seed : Nat) (tr : Bool) :
    (run_simulation g r1 ia srv K (-1) seed tr).1 = (none, 0) := rfl

/-- C10: with tracing disabled every customer runs only the occupancy
increment and terminates before the admission check (src/mm1k.py line 39):
nobody is dropped or served, the loss count is 0, the mean waiting time is
undefined (NaN, here `none`), and the occupancy list ends holding one entry
per generated customer. -/
theorem C10_trace_off_bypasses_lifecycle (g : Nat → Nat → ℚ) (r1 : PRNG)
    (ia srv : ℚ) (K : Int) (num : Nat) (seed : Nat) (hnum : 1 ≤ num) :
    (run_simulation g r1 ia srv K (num : Int) seed false).1 = (none, 0)
    ∧ (finalState g ia srv K (num : Int) seed false).waiting.length = num := by
  obtain ⟨hlo, hwa, hocc⟩ := final_trace_off g ia srv K (num : Int) seed
  refine ⟨?_, by simpa using hocc⟩
  show (npMean (finalState g ia srv K (num : Int) seed false).wait_times,
    (finalState g ia srv K (num : Int) seed false).loss.length) = (none, 0)
  rw [hwa, hlo]
  simp [npMean]

/-- C10 witness: one customer, tracing disabled, unit draws. -/
theorem C10_trace_off_bypasses_lifecycle_witness :
    (run_simulation gOne r0def 1 1 1 ((1 : Nat) : Int) 0 false).1 = (none, 0)
    ∧ (finalState gOne 1 1 1 ((1 : Nat) : Int) 0 false).waiting.length = 1 :=
  C10_trace_off_bypasses_lifecycle gOne r0def 1 1 1 1 0 (by norm_num)

end MM1K
